import Mathlib

/-!
Verification of the lock-contention benchmark harness
(`shared_mutex_vs_mutex_bench.cpp`, `shared_mutex_vs_mutex_bench_light_read.cpp`,
`comparison_shared_vs_regular_mutex_googlebechmark.cpp`).

The shared `std::map<int, double>` is embedded as an association list of
key-value pairs with `Int` keys; `double` values are modelled by exact
rationals, and the transcendental routines `std::sqrt` / `std::sin` are
abstract function parameters (`msqrt`, `msin`), since no claim depends on
their numeric values, only on which function is applied where.

The lock disciplines of the benchmark bodies are embedded as labelled
transition systems over the vector of per-worker "inside the workload body"
flags; an interleaving of worker cycles is a path of the transition relation.
-/

set_option maxRecDepth 4096

/-- The `std::map<int, double>` field `data` of `BenchmarkContext` (called
`global_data` in the comparison file): an association list with distinct keys,
values modelled as exact rationals. -/
abbrev StoreMap := List (Int × ℚ)

/-- `std::map::find`-style lookup: the value stored at `k`, if any. -/
def storeLookup : StoreMap → Int → Option ℚ
  | [], _ => none
  | (k0, v) :: t, k => if k0 = k then some v else storeLookup t k

/-- The net effect of `data[k] = v` on a `std::map`: replace the value at an
existing key, otherwise add the new key. -/
def storeAssign : StoreMap → Int → ℚ → StoreMap
  | [], k, v => [(k, v)]
  | (k0, v0) :: t, k, v =>
      if k0 = k then (k0, v) :: t else (k0, v0) :: storeAssign t k v

/-- `std::map::operator[]` in a reading position: when `k` is absent it
default-inserts `0.0` and yields `0.0`; it returns the (possibly grown) map
together with the value stored at `k`. -/
def storeIndex (s : StoreMap) (k : Int) : StoreMap × ℚ :=
  match storeLookup s k with
  | some v => (s, v)
  | none => (storeAssign s k 0, 0)

/-- `BenchmarkContext::setup` (and the identical free function `SetupData` of
the comparison file): when `data` is empty, run
`for (int i = 0; i < 1000; ++i) data[i] = std::sqrt(i);`; otherwise no-op.
`msqrt` models `std::sqrt` applied to an `int` promoted to `double`. -/
def setup (msqrt : Int → ℚ) (data : StoreMap) : StoreMap :=
  if data.isEmpty then
    (List.range 1000).foldl
      (fun acc (i : Nat) => storeAssign acc ((i : Int)) (msqrt ((i : Int)))) data
  else data

/-- `DoWrite`: `g_ctx.data[0] += 1.1;` — `operator[]` default-inserts `0.0`
when key `0` is absent, then `1.1` is added in place.  The trailing
`benchmark::DoNotOptimize(g_ctx.data[0])` re-reads key `0` (now certainly
present) and does not change the map. -/
def DoWrite (s : StoreMap) : StoreMap :=
  let r := storeIndex s 0
  storeAssign r.1 0 (r.2 + 11/10)

/-- `DoLightRead`: `double value = g_ctx.data[500];` with `operator[]`
semantics; returns the possibly-grown map and the value read. -/
def DoLightRead (s : StoreMap) : StoreMap × ℚ := storeIndex s 500

/-- The key sequence traversed by the `DoHeavyRead` loop:
`i % 1000` for `i = 0 .. 49`. -/
def heavyReadKeys : List Int := (List.range 50).map (fun (i : Nat) => (i : Int) % 1000)

/-- `DoHeavyRead`: `double total = 0; for (int i = 0; i < 50; ++i)
total += std::sin(g_ctx.data[i % 1000]);` with `operator[]` semantics,
threading the map through every lookup; returns the final map and `total`.
`msin` models `std::sin`. -/
def DoHeavyRead (msin : ℚ → ℚ) (s : StoreMap) : StoreMap × ℚ :=
  (List.range 50).foldl
    (fun acc (i : Nat) =>
      let r := storeIndex acc.1 ((i : Int) % 1000)
      (r.1, acc.2 + msin r.2))
    (s, 0)

/-- Worker roles, as in the spec's `RoleAssignment`. -/
inductive Role
  | writer
  | reader
deriving DecidableEq

/-- Modelled from the spec: `role_for(thread_ordinal)` — Writer iff the
ordinal is `0`, else Reader.  Compared below with the dispatch conditions of
the benchmark bodies. -/
def role_for (thread_ordinal : Nat) : Role :=
  if thread_ordinal = 0 then Role.writer else Role.reader

/-- The role a worker takes in `BM_RegularMutex_Mixed` (heavy-read file),
read off its dispatch `if (state.thread_index() == 0) DoWrite(); else
DoHeavyRead();`. -/
def BM_RegularMutex_Mixed_role (threadIndex : Nat) : Role :=
  if threadIndex = 0 then Role.writer else Role.reader

/-- The role a worker takes in `BM_SharedMutex_Mixed` (heavy-read file), read
off its dispatch on `state.thread_index() == 0`. -/
def BM_SharedMutex_Mixed_role (threadIndex : Nat) : Role :=
  if threadIndex = 0 then Role.writer else Role.reader

/-- The role a worker takes in `BM_RegularMutex_Mixed` of the light-read
file, read off its dispatch on `state.thread_index() == 0`. -/
def BM_RegularMutex_MixedLight_role (threadIndex : Nat) : Role :=
  if threadIndex = 0 then Role.writer else Role.reader

/-- The role a worker takes in `BM_SharedMutex_Mixed` of the light-read
file, read off its dispatch on `state.thread_index() == 0`. -/
def BM_SharedMutex_MixedLight_role (threadIndex : Nat) : Role :=
  if threadIndex = 0 then Role.writer else Role.reader

/-- One loop iteration of `BM_RegularMutex_Mixed` (heavy-read file), its
effect on the map: thread `0` runs `DoWrite`, every other thread runs
`DoHeavyRead`. -/
def BM_RegularMutex_Mixed_body (msin : ℚ → ℚ) (threadIndex : Nat)
    (s : StoreMap) : StoreMap :=
  if threadIndex = 0 then DoWrite s else (DoHeavyRead msin s).1

/-- One loop iteration of `BM_SharedMutex_Mixed` (heavy-read file), its
effect on the map. -/
def BM_SharedMutex_Mixed_body (msin : ℚ → ℚ) (threadIndex : Nat)
    (s : StoreMap) : StoreMap :=
  if threadIndex = 0 then DoWrite s else (DoHeavyRead msin s).1

/-- One loop iteration of `BM_RegularMutex_Mixed` of the light-read file:
thread `0` runs `DoWrite`, every other thread runs `DoLightRead`. -/
def BM_RegularMutex_MixedLight_body (threadIndex : Nat)
    (s : StoreMap) : StoreMap :=
  if threadIndex = 0 then DoWrite s else (DoLightRead s).1

/-- One loop iteration of `BM_SharedMutex_Mixed` of the light-read file. -/
def BM_SharedMutex_MixedLight_body (threadIndex : Nat)
    (s : StoreMap) : StoreMap :=
  if threadIndex = 0 then DoWrite s else (DoLightRead s).1

-- ===== Basic lemmas about the store =====

theorem storeLookup_assign_self (s : StoreMap) (k : Int) (v : ℚ) :
    storeLookup (storeAssign s k v) k = some v := by
  induction s with
  | nil => simp [storeAssign, storeLookup]
  | cons p t ih =>
      obtain ⟨k0, v0⟩ := p
      by_cases h : k0 = k
      · simp [storeAssign, storeLookup, h]
      · simp [storeAssign, storeLookup, h, ih]

theorem storeLookup_assign_ne (s : StoreMap) (k k' : Int) (v : ℚ)
    (h : k' ≠ k) : storeLookup (storeAssign s k v) k' = storeLookup s k' := by
  have hk : k ≠ k' := Ne.symm h
  induction s with
  | nil => simp [storeAssign, storeLookup, hk]
  | cons p t ih =>
      obtain ⟨k0, v0⟩ := p
      by_cases h0 : k0 = k
      · subst h0
        simp [storeAssign, storeLookup, hk]
      · simp [storeAssign, storeLookup, h0, ih]

theorem storeIndex_present (s : StoreMap) (k : Int) (v : ℚ)
    (h : storeLookup s k = some v) : storeIndex s k = (s, v) := by
  simp [storeIndex, h]

theorem storeIndex_absent (s : StoreMap) (k : Int)
    (h : storeLookup s k = none) : storeIndex s k = (storeAssign s k 0, 0) := by
  simp [storeIndex, h]

theorem storeAssign_append_of_absent (s : StoreMap) (k : Int) (v : ℚ)
    (h : storeLookup s k = none) : storeAssign s k v = s ++ [(k, v)] := by
  induction s with
  | nil => simp [storeAssign]
  | cons p t ih =>
      obtain ⟨k0, v0⟩ := p
      by_cases h0 : k0 = k
      · simp [storeLookup, h0] at h
      · simp [storeLookup, h0] at h
        simp [storeAssign, h0, ih h]

theorem storeLookup_append (s t : StoreMap) (k : Int) :
    storeLookup (s ++ t) k =
      match storeLookup s k with
      | some v => some v
      | none => storeLookup t k := by
  induction s with
  | nil => simp [storeLookup]
  | cons p l ih =>
      obtain ⟨k0, v0⟩ := p
      by_cases h0 : k0 = k
      · simp [storeLookup, h0]
      · simp [storeLookup, h0, ih]

-- ===== Characterization of the populate loop of setup =====

/-- The map produced by the populate loop `for (int i = 0; i < n; ++i)
data[i] = sqrt(i);` started from the empty map. -/
def populateList (msqrt : Int → ℚ) (n : Nat) : StoreMap :=
  (List.range n).foldl
    (fun acc (i : Nat) => storeAssign acc ((i : Int)) (msqrt ((i : Int)))) []

theorem storeLookup_rangeMap (g : Int → ℚ) (n : Nat) (k : Int) :
    storeLookup ((List.range n).map
        (fun (i : Nat) => ((i : Int), g ((i : Int))))) k =
      if 0 ≤ k ∧ k < (n : Int) then some (g k) else none := by
  induction n with
  | zero =>
      have h0 : ¬(0 ≤ k ∧ k < (0 : Int)) := by omega
      simp [storeLookup, h0]
  | succ n ih =>
      rw [List.range_succ, List.map_append, storeLookup_append, ih]
      by_cases hk : 0 ≤ k ∧ k < (n : Int)
      · have hk1 : 0 ≤ k ∧ k < ((n : Int) + 1) := by
          constructor
          · exact hk.1
          · omega
        rw [if_pos hk]
        rw [show ((n : Int) + 1) = ((n + 1 : Nat) : Int) by push_cast ; ring] at hk1
        rw [if_pos hk1]
      · by_cases he : (n : Int) = k
        · have hk1 : 0 ≤ k ∧ k < (((n + 1 : Nat) : Int)) := by push_cast ; omega
          rw [if_neg hk, if_pos hk1]
          simp [storeLookup, he]
        · have hk1 : ¬(0 ≤ k ∧ k < (((n + 1 : Nat) : Int))) := by push_cast ; omega
          rw [if_neg hk, if_neg hk1]
          simp [storeLookup, he]

theorem populateList_eq_map (msqrt : Int → ℚ) (n : Nat) :
    populateList msqrt n =
      (List.range n).map (fun (i : Nat) => ((i : Int), msqrt ((i : Int)))) := by
  induction n with
  | zero => rfl
  | succ n ih =>
      have habs : storeLookup (populateList msqrt n) ((n : Int)) = none := by
        rw [ih, storeLookup_rangeMap]
        have h0 : ¬(0 ≤ (n : Int) ∧ (n : Int) < (n : Int)) := by omega
        simp [h0]
      have hfold : (List.range n).foldl
          (fun acc (i : Nat) => storeAssign acc ((i : Int)) (msqrt ((i : Int))))
          ([] : StoreMap) = populateList msqrt n := rfl
      rw [populateList, List.range_succ, List.foldl_append, hfold]
      simp only [List.foldl_cons, List.foldl_nil]
      rw [storeAssign_append_of_absent _ _ _ habs, ih, List.map_append]
      rfl

theorem storeLookup_populateList (msqrt : Int → ℚ) (n : Nat) (k : Int) :
    storeLookup (populateList msqrt n) k =
      if 0 ≤ k ∧ k < (n : Int) then some (msqrt k) else none := by
  rw [populateList_eq_map, storeLookup_rangeMap]

theorem setup_nil (msqrt : Int → ℚ) :
    setup msqrt [] = populateList msqrt 1000 := rfl

theorem populateList_ne_nil (msqrt : Int → ℚ) :
    populateList msqrt 1000 ≠ [] := by
  intro h
  have hlen : (populateList msqrt 1000).length = 0 := by rw [h] ; rfl
  rw [populateList_eq_map, List.length_map, List.length_range] at hlen
  exact absurd hlen (by omega)

theorem setup_of_ne_nil (msqrt : Int → ℚ) (s : StoreMap) (h : s ≠ []) :
    setup msqrt s = s := by
  have he : s.isEmpty = false := by
    cases s with
    | nil => exact absurd rfl h
    | cons p t => rfl
  simp [setup, he]

theorem setup_setup (msqrt : Int → ℚ) (s : StoreMap) :
    setup msqrt (setup msqrt s) = setup msqrt s := by
  cases s with
  | nil => rw [setup_nil, setup_of_ne_nil _ _ (populateList_ne_nil msqrt)]
  | cons p t =>
      rw [setup_of_ne_nil _ _ (List.cons_ne_nil p t),
        setup_of_ne_nil _ _ (List.cons_ne_nil p t)]

-- ===== Claim theorems: data model (C3, C4, C5, C6) =====

/-- C3: the role assignment is a pure function of the thread ordinal, Writer
iff the ordinal is 0, and it is the same in the Exclusive and the
SharedReaderWriter mixed benchmarks of both files: in each cycle the worker
with ordinal 0 performs the write workload and every worker with ordinal
n + 1 > 0 performs the read workload. -/
theorem role_assignment_writer_iff_zero :
    (∀ n, BM_RegularMutex_Mixed_role n = role_for n
        ∧ BM_SharedMutex_Mixed_role n = role_for n
        ∧ BM_RegularMutex_MixedLight_role n = role_for n
        ∧ BM_SharedMutex_MixedLight_role n = role_for n)
    ∧ (∀ n, role_for n = Role.writer ↔ n = 0)
    ∧ (∀ msin s, BM_RegularMutex_Mixed_body msin 0 s = DoWrite s
        ∧ BM_SharedMutex_Mixed_body msin 0 s = DoWrite s
        ∧ BM_RegularMutex_MixedLight_body 0 s = DoWrite s
        ∧ BM_SharedMutex_MixedLight_body 0 s = DoWrite s)
    ∧ (∀ msin (n : Nat) s,
        BM_RegularMutex_Mixed_body msin (n + 1) s = (DoHeavyRead msin s).1
        ∧ BM_SharedMutex_Mixed_body msin (n + 1) s = (DoHeavyRead msin s).1
        ∧ BM_RegularMutex_MixedLight_body (n + 1) s = (DoLightRead s).1
        ∧ BM_SharedMutex_MixedLight_body (n + 1) s = (DoLightRead s).1) := by
  refine ⟨fun n => ⟨rfl, rfl, rfl, rfl⟩, fun n => ?_,
    fun msin s => ⟨rfl, rfl, rfl, rfl⟩, fun msin n s => ⟨rfl, rfl, rfl, rfl⟩⟩
  cases n with
  | zero => simp [role_for]
  | succ m => simp [role_for]

/-- C4: `setup` populates the map iff it is currently empty and is a no-op
otherwise; hence `setup` followed by any number of further `setup` calls
leaves the contents unchanged. -/
theorem setup_idempotent (msqrt : Int → ℚ) (s : StoreMap) :
    (s = [] → setup msqrt s = populateList msqrt 1000)
    ∧ (s ≠ [] → setup msqrt s = s)
    ∧ ∀ K : Nat, (setup msqrt)^[K] (setup msqrt s) = setup msqrt s := by
  refine ⟨?_, setup_of_ne_nil msqrt s, ?_⟩
  · intro h
    subst h
    exact setup_nil msqrt
  · intro K
    induction K with
    | zero => rfl
    | succ K ih => rw [Function.iterate_succ_apply', ih, setup_setup]

theorem setup_idempotent_witness :
    setup (fun _ => (0 : ℚ)) [(0, 1)] = [(0, 1)]
    ∧ (setup (fun _ => (0 : ℚ)))^[3] (setup (fun _ => (0 : ℚ)) [(0, 1)])
        = setup (fun _ => (0 : ℚ)) [(0, 1)] :=
  ⟨(setup_idempotent (fun _ => (0 : ℚ)) [(0, 1)]).2.1 (List.cons_ne_nil _ _),
    (setup_idempotent (fun _ => (0 : ℚ)) [(0, 1)]).2.2 3⟩

/-- C5: after `setup` on the empty map, the map contains exactly the keys
`k` with `0 ≤ k < 1000`, and the value stored at such a key is `sqrt(k)`
(the modelled `std::sqrt`). -/
theorem setup_populates_range_sqrt (msqrt : Int → ℚ) (k : Int) :
    storeLookup (setup msqrt []) k =
      if 0 ≤ k ∧ k < 1000 then some (msqrt k) else none := by
  rw [setup_nil, storeLookup_populateList]
  norm_num

theorem DoWrite_of_present (s : StoreMap) (v0 : ℚ)
    (h : storeLookup s 0 = some v0) :
    DoWrite s = storeAssign s 0 (v0 + 11/10) := by
  simp only [DoWrite, storeIndex_present s 0 v0 h]

/-- C6: starting from any map holding `v0` at key `0`, iterating `DoWrite`
K times leaves `v0 + 1.1 * K` at key `0` and no other key is modified. -/
theorem doWrite_iterated_adds_delta (s : StoreMap) (v0 : ℚ) (K : Nat)
    (h : storeLookup s 0 = some v0) :
    storeLookup (DoWrite^[K] s) 0 = some (v0 + 11/10 * (K : ℚ))
    ∧ ∀ k : Int, k ≠ 0 → storeLookup (DoWrite^[K] s) k = storeLookup s k := by
  induction K with
  | zero =>
      refine ⟨?_, fun k hk => rfl⟩
      simpa using h
  | succ K ih =>
      obtain ⟨h0, hoth⟩ := ih
      constructor
      · rw [Function.iterate_succ_apply', DoWrite_of_present _ _ h0,
          storeLookup_assign_self]
        congr 1
        push_cast
        ring
      · intro k hk
        rw [Function.iterate_succ_apply', DoWrite_of_present _ _ h0,
          storeLookup_assign_ne _ _ _ _ hk, hoth k hk]

theorem doWrite_iterated_adds_delta_witness :
    storeLookup (DoWrite^[2] [(0, 5)]) 0 = some (5 + 11/10 * ((2 : Nat) : ℚ)) :=
  (doWrite_iterated_adds_delta [(0, 5)] 5 2 rfl).1

-- ===== Heavy-read fold lemmas (C7, C8) =====

theorem heavyFold_of_present (msin : ℚ → ℚ) (g : Nat → ℚ) (l : List Nat)
    (s : StoreMap) (t0 : ℚ)
    (h : ∀ i ∈ l, storeLookup s ((i : Int) % 1000) = some (g i)) :
    l.foldl
      (fun acc (i : Nat) =>
        let r := storeIndex acc.1 ((i : Int) % 1000)
        (r.1, acc.2 + msin r.2))
      (s, t0)
    = (s, t0 + (l.map (fun i => msin (g i))).sum) := by
  induction l generalizing t0 with
  | nil => simp
  | cons a l ih =>
      have ha : storeLookup s ((a : Int) % 1000) = some (g a) :=
        h a (List.mem_cons_self a l)
      have hl : ∀ i ∈ l, storeLookup s ((i : Int) % 1000) = some (g i) :=
        fun i hi => h i (List.mem_cons_of_mem a hi)
      simp only [List.foldl_cons, storeIndex_present _ _ _ ha]
      rw [ih _ hl]
      simp only [List.map_cons, List.sum_cons]
      congr 1
      ring

theorem DoHeavyRead_setup (msqrt : Int → ℚ) (msin : ℚ → ℚ) :
    DoHeavyRead msin (setup msqrt []) =
      (setup msqrt [],
        ((List.range 50).map (fun (i : Nat) => msin (msqrt ((i : Int))))).sum) := by
  rw [DoHeavyRead]
  have h : ∀ i ∈ List.range 50,
      storeLookup (setup msqrt []) ((i : Int) % 1000) = some (msqrt ((i : Int))) := by
    intro i hi
    rw [List.mem_range] at hi
    have hmod : ((i : Int) % 1000) = (i : Int) := by
      apply Int.emod_eq_of_lt
      · omega
      · omega
    have hb : 0 ≤ (i : Int) ∧ (i : Int) < 1000 := by omega
    rw [hmod, setup_populates_range_sqrt, if_pos hb]
  rw [heavyFold_of_present msin (fun i => msqrt ((i : Int))) _ _ _ h, zero_add]

/-- C7: `DoHeavyRead` performs exactly 50 lookups, at the key sequence
`i % 1000` for `i = 0 .. 49` (which, since 50 < 1000, is just `0 .. 49`);
on the store populated by `setup` it leaves the store unchanged and its
accumulated total is the value determined by that fixed key sequence:
the sum of `sin(sqrt(i))` over `i = 0 .. 49`. -/
theorem doHeavyRead_fifty_lookups_sum (msqrt : Int → ℚ) (msin : ℚ → ℚ) :
    heavyReadKeys.length = 50
    ∧ heavyReadKeys = (List.range 50).map (fun (i : Nat) => (i : Int))
    ∧ DoHeavyRead msin (setup msqrt []) =
        (setup msqrt [],
          ((List.range 50).map (fun (i : Nat) => msin (msqrt ((i : Int))))).sum) := by
  refine ⟨by simp [heavyReadKeys], ?_, DoHeavyRead_setup msqrt msin⟩
  rw [heavyReadKeys]
  apply List.map_congr_left
  intro i hi
  rw [List.mem_range] at hi
  apply Int.emod_eq_of_lt
  · omega
  · omega

theorem heavyFold_preserves (msin : ℚ → ℚ) (l : List Nat) (s : StoreMap)
    (t0 : ℚ) (h : ∀ i ∈ l, (storeLookup s ((i : Int) % 1000)).isSome) :
    (l.foldl
      (fun acc (i : Nat) =>
        let r := storeIndex acc.1 ((i : Int) % 1000)
        (r.1, acc.2 + msin r.2))
      (s, t0)).1 = s := by
  have hsome : ∀ i ∈ l, storeLookup s ((i : Int) % 1000) =
      some ((storeLookup s ((i : Int) % 1000)).getD 0) := by
    intro i hi
    rcases hx : storeLookup s ((i : Int) % 1000) with _ | v
    · have hc := h i hi
      rw [hx] at hc
      simp at hc
    · simp
  rw [heavyFold_of_present msin
    (fun i => (storeLookup s ((i : Int) % 1000)).getD 0) l s t0 hsome]

/-- C8: the read workloads are pure lookups on any store holding all the
keys they pass (as the setup-populated store does): `DoHeavyRead` and
`DoLightRead` leave the mapping's contents unchanged. -/
theorem read_workloads_preserve_store (msin : ℚ → ℚ) (s : StoreMap) :
    ((∀ k ∈ heavyReadKeys, (storeLookup s k).isSome) →
        (DoHeavyRead msin s).1 = s)
    ∧ ((storeLookup s 500).isSome → (DoLightRead s).1 = s) := by
  constructor
  · intro h
    rw [DoHeavyRead]
    apply heavyFold_preserves
    intro i hi
    apply h
    rw [heavyReadKeys]
    exact List.mem_map_of_mem _ hi
  · intro h
    rcases hx : storeLookup s 500 with _ | v
    · rw [hx] at h
      exact absurd h (by simp)
    · rw [DoLightRead, storeIndex_present s 500 v hx]

/-- The concrete store used to witness C8: it holds every key the read
workloads pass (keys 0 .. 49 and key 500). -/
def readWitnessStore : StoreMap :=
  (List.range 50).map (fun (i : Nat) => ((i : Int), (0 : ℚ))) ++ [(500, 0)]

theorem read_workloads_preserve_store_witness :
    (DoHeavyRead id readWitnessStore).1 = readWitnessStore
    ∧ (DoLightRead readWitnessStore).1 = readWitnessStore :=
  ⟨(read_workloads_preserve_store id readWitnessStore).1 (by decide),
    (read_workloads_preserve_store id readWitnessStore).2 (by decide)⟩

/-- C10: `operator[]` on a key absent from the mapping inserts that key with
the default value `0.0` and yields `0.0` instead of failing; in particular a
read workload run on an unpopulated store mutates the store. -/
theorem operatorIndex_inserts_default_on_missing :
    (∀ (s : StoreMap) (k : Int), storeLookup s k = none →
        storeIndex s k = (storeAssign s k 0, 0)
        ∧ storeLookup (storeAssign s k 0) k = some 0
        ∧ storeAssign s k 0 ≠ s)
    ∧ (∀ s : StoreMap, storeLookup s 500 = none →
        DoLightRead s = (storeAssign s 500 0, 0)) := by
  constructor
  · intro s k h
    refine ⟨storeIndex_absent s k h, storeLookup_assign_self s k 0, ?_⟩
    intro he
    have hself := storeLookup_assign_self s k 0
    rw [he, h] at hself
    cases hself
  · intro s h
    rw [DoLightRead, storeIndex_absent s 500 h]

theorem operatorIndex_inserts_default_on_missing_witness :
    storeIndex [] 7 = (storeAssign [] 7 0, 0)
    ∧ storeLookup (storeAssign [] 7 0) 7 = some 0
    ∧ storeAssign ([] : StoreMap) 7 0 ≠ []
    ∧ DoLightRead [] = (storeAssign [] 500 0, 0) :=
  ⟨(operatorIndex_inserts_default_on_missing.1 [] 7 rfl).1,
    (operatorIndex_inserts_default_on_missing.1 [] 7 rfl).2.1,
    (operatorIndex_inserts_default_on_missing.1 [] 7 rfl).2.2,
    operatorIndex_inserts_default_on_missing.2 [] rfl⟩

-- ===== Lock-discipline transition systems (C1, C2) =====

/-- Per-worker flag vector for a benchmark run with `n + 1` threads (thread
ordinals `0 .. n`): `true` means the worker currently holds its lock
acquisition and is inside its workload body. -/
abbrev WorkerState (n : Nat) := Fin (n + 1) → Bool

/-- The state before any worker has entered a cycle. -/
def allIdle (n : Nat) : WorkerState n := fun _ => false

/-- One interleaving step of `BM_SharedMutex_Mixed` (identical locking in
both mixed files): thread 0 is the writer and acquires `shared_mtx` through
`std::unique_lock` — exclusive mode, admitted only when nobody holds the
lock; every other thread is a reader and acquires through
`std::shared_lock` — shared mode, admitted whenever no exclusive holder
exists (thread 0 is the only worker that ever takes exclusive mode, so that
guard is `σ 0 = false`); a holder may release at any time, which models the
scoped guard leaving the loop body.  A platform `std::shared_mutex` may
additionally delay shared admission while a writer waits; that only removes
transitions, so every invariant proved over this relation covers it. -/
inductive SMStep (n : Nat) : WorkerState n → WorkerState n → Prop
  | acquireWriter (σ : WorkerState n) (hfree : ∀ j, σ j = false) :
      SMStep n σ (Function.update σ 0 true)
  | acquireReader (σ : WorkerState n) (i : Fin (n + 1)) (hi : i ≠ 0)
      (hidle : σ i = false) (hnw : σ 0 = false) :
      SMStep n σ (Function.update σ i true)
  | release (σ : WorkerState n) (i : Fin (n + 1)) (hheld : σ i = true) :
      SMStep n σ (Function.update σ i false)

/-- The states of `BM_SharedMutex_Mixed` reachable by some interleaving of
worker cycles from the all-idle state. -/
def SMReachable (n : Nat) (σ : WorkerState n) : Prop :=
  Relation.ReflTransGen (SMStep n) (allIdle n) σ

theorem smWriterExclusion {n : Nat} {σ : WorkerState n}
    (h : SMReachable n σ) : σ 0 = true → ∀ j, j ≠ 0 → σ j = false := by
  induction h with
  | refl =>
      intro h0
      simp [allIdle] at h0
  | tail hab hstep ih =>
      cases hstep with
      | acquireWriter hfree =>
          intro _ j hj
          rw [Function.update_noteq hj]
          exact hfree j
      | acquireReader i hi hidle hnw =>
          intro h0
          rw [Function.update_noteq (Ne.symm hi), hnw] at h0
          exact absurd h0 (by simp)
      | release i hheld =>
          intro h0 j hj
          by_cases hio : (0 : Fin (n + 1)) = i
          · rw [← hio, Function.update_same] at h0
            exact absurd h0 (by simp)
          · rw [Function.update_noteq hio] at h0
            by_cases hji : j = i
            · subst hji
              rw [Function.update_same]
            · rw [Function.update_noteq hji]
              exact ih h0 j hj

/-- C1: in the SharedReaderWriter mixed benchmark, over every interleaving
of worker cycles: at most one writer-role worker holds the lock at a time;
whenever the writer (thread 0) is inside its workload body no reader is
active; and multiple readers may be concurrently active while no writer
holds the lock — witnessed by a reachable 3-thread state in which readers 1
and 2 are both inside their workload bodies and the writer is idle. -/
theorem shared_mutex_writer_reader_exclusion :
    (∀ (n : Nat) (σ : WorkerState n), SMReachable n σ →
        (∀ i j : Fin (n + 1), σ i = true →
            BM_SharedMutex_Mixed_role (i : Nat) = Role.writer →
            σ j = true →
            BM_SharedMutex_Mixed_role (j : Nat) = Role.writer → i = j)
        ∧ (σ 0 = true → ∀ j, j ≠ 0 → σ j = false))
    ∧ ∃ σ : WorkerState 2, SMReachable 2 σ
        ∧ σ 1 = true ∧ σ 2 = true ∧ σ 0 = false := by
  constructor
  · intro n σ h
    refine ⟨?_, smWriterExclusion h⟩
    intro i j hi hiw hj hjw
    have hi0 : (i : Nat) = 0 := by
      by_contra hne
      simp [BM_SharedMutex_Mixed_role, hne] at hiw
    have hj0 : (j : Nat) = 0 := by
      by_contra hne
      simp [BM_SharedMutex_Mixed_role, hne] at hjw
    exact Fin.ext (hi0.trans hj0.symm)
  · refine ⟨Function.update (Function.update (allIdle 2) 1 true) 2 true,
      ?_, by decide, by decide, by decide⟩
    exact Relation.ReflTransGen.tail
      (Relation.ReflTransGen.single
        (SMStep.acquireReader (allIdle 2) 1 (by decide) rfl rfl))
      (SMStep.acquireReader _ 2 (by decide) (by decide) (by decide))

theorem shared_mutex_writer_reader_exclusion_witness :
    Function.update (allIdle 2) 0 true 1 = false :=
  (shared_mutex_writer_reader_exclusion.1 2 (Function.update (allIdle 2) 0 true)
      (Relation.ReflTransGen.single
        (SMStep.acquireWriter (allIdle 2) (fun j => rfl)))).2
    (by decide) 1 (by decide)

/-- One interleaving step of the exclusive-lock benchmarks
(`BM_RegularMutex_Mixed` in both mixed files and `BM_RegularMutex` in the
comparison file): every thread, writer or reader alike, acquires the single
`regular_mtx` through `std::lock_guard`, admitted only when no worker holds
it; a holder may release, which models the guard leaving the loop body. -/
inductive MXStep (n : Nat) : WorkerState n → WorkerState n → Prop
  | acquire (σ : WorkerState n) (i : Fin (n + 1)) (hfree : ∀ j, σ j = false) :
      MXStep n σ (Function.update σ i true)
  | release (σ : WorkerState n) (i : Fin (n + 1)) (hheld : σ i = true) :
      MXStep n σ (Function.update σ i false)

/-- The states of the exclusive-lock benchmarks reachable by some
interleaving of worker cycles from the all-idle state. -/
def MXReachable (n : Nat) (σ : WorkerState n) : Prop :=
  Relation.ReflTransGen (MXStep n) (allIdle n) σ

/-- C2: in the Exclusive benchmarks every worker, reader or writer, takes
the same single exclusive lock for its cycle, so over every interleaving of
worker cycles at most one worker is ever inside its workload body: if
worker `i` is inside, every other worker is outside. -/
theorem regular_mutex_mutual_exclusion (n : Nat) (σ : WorkerState n)
    (h : MXReachable n σ) :
    ∀ i : Fin (n + 1), σ i = true → ∀ j, j ≠ i → σ j = false := by
  induction h with
  | refl =>
      intro i hi
      simp [allIdle] at hi
  | tail hab hstep ih =>
      cases hstep with
      | acquire i0 hfree =>
          intro i hi j hj
          by_cases hii : i = i0
          · subst hii
            rw [Function.update_noteq (fun he => hj he)]
            exact hfree j
          · rw [Function.update_noteq hii, hfree i] at hi
            exact absurd hi (by simp)
      | release i0 hheld =>
          intro i hi j hj
          by_cases hii : i = i0
          · subst hii
            rw [Function.update_same] at hi
            exact absurd hi (by simp)
          · rw [Function.update_noteq hii] at hi
            by_cases hji : j = i0
            · subst hji
              rw [Function.update_same]
            · rw [Function.update_noteq hji]
              exact ih i hi j hj

theorem regular_mutex_mutual_exclusion_witness :
    Function.update (allIdle 1) 0 true 1 = false :=
  regular_mutex_mutual_exclusion 1 (Function.update (allIdle 1) 0 true)
    (Relation.ReflTransGen.single (MXStep.acquire (allIdle 1) 0 (fun j => rfl)))
    0 (by decide) 1 (by decide)

-- ===== Concurrent redundant setup calls (C9) =====

/-- Program counter of one thread executing `setup`: `start` before the
`data.empty()` guard; `populating i` inside the populate loop with loop
counter `i`; `stopped` after `setup` returns. -/
inductive SetupPc
  | start
  | populating (i : Nat)
  | stopped

/-- Global state of two threads running `g_ctx.setup()` concurrently, as
every per-thread benchmark body does before its timed loop: the shared map
and each thread's program counter. -/
structure SetupRace where
  data : StoreMap
  pcA : SetupPc
  pcB : SetupPc

/-- Statement-level interleaving semantics of two unsynchronized concurrent
`setup` calls: a step is one thread evaluating the `data.empty()` guard,
executing one `data[i] = sqrt(i)` loop iteration, or leaving the loop.
There is no synchronization in the source, so steps of the two threads
interleave freely over the shared `data`. -/
inductive SetupRaceStep (msqrt : Int → ℚ) : SetupRace → SetupRace → Prop
  | checkA (st : SetupRace) (h : st.pcA = SetupPc.start) :
      SetupRaceStep msqrt st
        { st with pcA :=
            if st.data.isEmpty then SetupPc.populating 0 else SetupPc.stopped }
  | checkB (st : SetupRace) (h : st.pcB = SetupPc.start) :
      SetupRaceStep msqrt st
        { st with pcB :=
            if st.data.isEmpty then SetupPc.populating 0 else SetupPc.stopped }
  | writeA (st : SetupRace) (i : Nat) (h : st.pcA = SetupPc.populating i)
      (hlt : i < 1000) :
      SetupRaceStep msqrt st
        { st with data := storeAssign st.data ((i : Int)) (msqrt ((i : Int))),
                  pcA := SetupPc.populating (i + 1) }
  | writeB (st : SetupRace) (i : Nat) (h : st.pcB = SetupPc.populating i)
      (hlt : i < 1000) :
      SetupRaceStep msqrt st
        { st with data := storeAssign st.data ((i : Int)) (msqrt ((i : Int))),
                  pcB := SetupPc.populating (i + 1) }
  | leaveA (st : SetupRace) (i : Nat) (h : st.pcA = SetupPc.populating i)
      (hge : ¬ i < 1000) :
      SetupRaceStep msqrt st { st with pcA := SetupPc.stopped }
  | leaveB (st : SetupRace) (i : Nat) (h : st.pcB = SetupPc.populating i)
      (hge : ¬ i < 1000) :
      SetupRaceStep msqrt st { st with pcB := SetupPc.stopped }

/-- C9 is refuted by this interleaving: from the initial empty store, thread
A evaluates `data.empty()` (true), then thread B evaluates `data.empty()`
(still true) — both threads are now inside the populate branch at loop index
0, and each can perform the unsynchronized write `data[0] = sqrt(0)` to the
shared map next.  The emptiness guard therefore does not make concurrent
redundant `setup` calls populate exactly once, and both threads mutate the
shared `std::map` without any lock (a data race in the source). -/
theorem setup_concurrent_double_populate (msqrt : Int → ℚ) :
    ∃ st : SetupRace,
      Relation.ReflTransGen (SetupRaceStep msqrt)
        { data := [], pcA := SetupPc.start, pcB := SetupPc.start } st
      ∧ st.pcA = SetupPc.populating 0
      ∧ st.pcB = SetupPc.populating 0
      ∧ SetupRaceStep msqrt st
          { st with data := storeAssign st.data 0 (msqrt 0),
                    pcA := SetupPc.populating 1 }
      ∧ SetupRaceStep msqrt st
          { st with data := storeAssign st.data 0 (msqrt 0),
                    pcB := SetupPc.populating 1 } := by
  refine ⟨{ data := [], pcA := SetupPc.populating 0, pcB := SetupPc.populating 0 },
    ?_, rfl, rfl,
    SetupRaceStep.writeA _ 0 rfl (by omega),
    SetupRaceStep.writeB _ 0 rfl (by omega)⟩
  exact Relation.ReflTransGen.tail
    (Relation.ReflTransGen.single
      (SetupRaceStep.checkA { data := [], pcA := SetupPc.start, pcB := SetupPc.start } rfl))
    (SetupRaceStep.checkB _ rfl)
